import Mathlib

/-!
Verification development for the KindleNotion browser extension.

The definitions below are a shallow embedding of the reconciliation,
readiness, dedup, batching and sync code of the repository:

* the candidate-set planner and cache merge of `extractAllBooksAuto`
  (content script, `src/unnamed/part_000`),
* the title normalizers and readiness matcher of `waitForTitleUpdate`,
* the dedup filter and orchestrator loop of `syncBooksToNotion`
  (`src/background.js`),
* `findBookByTitle`, `updateBookPage` and `addHighlightBlocks`
  (`src/lib/notion-api.js`).

JavaScript strings are modelled as Lean `String`s (titles and highlight
texts live in the BMP, where code points and UTF-16 units agree), JS
numbers occurring as counts are modelled as `Int` (the live-count
sentinel `-1` included), JS objects used as count maps are modelled as
association lists with last-binding-wins lookup (object spread becomes
list append), and network calls are modelled by `Except`-valued
environments plus explicit call traces.
-/

/-! ## JS string primitives -/

/-- JS `s.substring(0, n)`: the first `n` characters of `s`. -/
def jsSubstring (s : String) (n : Nat) : String :=
  ⟨s.data.take n⟩

/-- JS `hay.includes(needle)`: contiguous-substring containment. -/
def strIncludes (hay needle : String) : Bool :=
  decide (needle.data <:+: hay.data)

/-- The JS `\s` whitespace class (ECMAScript WhiteSpace plus line
terminators), as used by the regexes and `trim()` in the content
script. -/
def isJsSpace (c : Char) : Bool :=
  c.toNat == 0x9 || c.toNat == 0xA || c.toNat == 0xB || c.toNat == 0xC ||
  c.toNat == 0xD || c.toNat == 0x20 || c.toNat == 0xA0 || c.toNat == 0x1680 ||
  (0x2000 ≤ c.toNat && c.toNat ≤ 0x200A) || c.toNat == 0x2028 ||
  c.toNat == 0x2029 || c.toNat == 0x202F || c.toNat == 0x205F ||
  c.toNat == 0x3000 || c.toNat == 0xFEFF

/-- JS `s.trim()`: strip `\s` characters from both ends. -/
def jsTrim (s : String) : String :=
  ⟨((s.data.dropWhile isJsSpace).reverse.dropWhile isJsSpace).reverse⟩

/-! ## Fingerprint normalizer (content script)

`waitForTitleUpdate` (part_000:585-587) strips the character class
`[\s　-‐-―:：・、。！？`
`!?,.()（）【】[]]`
and truncates to 30 characters; the cache key (part_000:114) truncates
the title to 50 characters and replaces every character outside
`[a-zA-Z0-9぀-ゟ゠-ヿ一-鿿]` by an underscore. -/

/-- Characters removed by `normalizeTitle` in `waitForTitleUpdate`. -/
def isStrippedChar (c : Char) : Bool :=
  isJsSpace c || c.toNat == 0x3000 || c.toNat == 0x2D ||
  (0x2010 ≤ c.toNat && c.toNat ≤ 0x2015) || c.toNat == 0x3A ||
  c.toNat == 0xFF1A || c.toNat == 0x30FB || c.toNat == 0x3001 ||
  c.toNat == 0x3002 || c.toNat == 0xFF01 || c.toNat == 0xFF1F ||
  c.toNat == 0x21 || c.toNat == 0x3F || c.toNat == 0x2C ||
  c.toNat == 0x2E || c.toNat == 0x28 || c.toNat == 0x29 ||
  c.toNat == 0xFF08 || c.toNat == 0xFF09 || c.toNat == 0x3010 ||
  c.toNat == 0x3011 || c.toNat == 0x5B || c.toNat == 0x5D

/-- Character-list form of `normalizeTitle`: remove the stripped
characters, then `substring(0, 30)`. -/
def normalizeTitleChars (l : List Char) : List Char :=
  (l.filter (fun c => !isStrippedChar c)).take 30

/-- `normalizeTitle` of `waitForTitleUpdate`. -/
def normalizeTitle (t : String) : String :=
  ⟨normalizeTitleChars t.data⟩

/-- Characters of the `splitTitle` delimiter class
`[　:：・‐-―-–—〜|]`. -/
def isSplitChar (c : Char) : Bool :=
  c.toNat == 0x3000 || c.toNat == 0x3A || c.toNat == 0xFF1A ||
  c.toNat == 0x30FB || (0x2010 ≤ c.toNat && c.toNat ≤ 0x2015) ||
  c.toNat == 0x2D || c.toNat == 0x2013 || c.toNat == 0x2014 ||
  c.toNat == 0x301C || c.toNat == 0x7C

/-- JS `String.split` on a character class: cut at every delimiter
character, keeping empty segments. -/
def jsSplit (p : Char → Bool) : List Char → List (List Char)
  | [] => [[]]
  | c :: cs =>
    let r := jsSplit p cs
    if p c then [] :: r else (c :: r.headD []) :: r.tail

/-- `splitTitle` of `waitForTitleUpdate`: split on the delimiter class,
trim each part, keep the non-empty ones (`filter(Boolean)`). -/
def splitTitle (t : String) : List String :=
  ((jsSplit isSplitChar t.data).map (fun l => jsTrim ⟨l⟩)).filter
    (fun s => s ≠ "")

/-- The expected-title variant collection of `waitForTitleUpdate`
(part_000:594-605): full normalized form, normalized form of each
delimiter-split segment, and the 10- and 15-character prefixes of the
normalized form when it is longer than that.  The source stores the
variants in a JS `Set`; duplicates are irrelevant to the
any-variant-matches check, so a plain list is used here. -/
def expectedVariants (expectedTitle : String) : List String :=
  let en := normalizeTitle expectedTitle
  [en] ++ (splitTitle expectedTitle).map normalizeTitle ++
    (if 10 < en.length then [⟨en.data.take 10⟩] else []) ++
    (if 15 < en.length then [⟨en.data.take 15⟩] else [])

/-- `matchesExpected` of `waitForTitleUpdate` (part_000:607-617): an
empty current title never matches; otherwise the normalized current
title must contain, or be contained in, some non-empty variant. -/
def matchesExpected (expectedTitle currentTitle : String) : Bool :=
  if currentTitle = "" then false
  else
    let norm := normalizeTitle currentTitle
    (expectedVariants expectedTitle).any
      (fun v => !(v == "") && (strIncludes norm v || strIncludes v norm))

/-- The cache-key normalization of `extractAllBooksAuto` (part_000:114):
`title.substring(0, 50).replace(/[^a-zA-Z0-9぀-ゟ゠-ヿ一-鿿]/g, '_')`. -/
def isBookKeyChar (c : Char) : Bool :=
  (0x61 ≤ c.toNat && c.toNat ≤ 0x7A) || (0x41 ≤ c.toNat && c.toNat ≤ 0x5A) ||
  (0x30 ≤ c.toNat && c.toNat ≤ 0x39) ||
  (0x3040 ≤ c.toNat && c.toNat ≤ 0x309F) ||
  (0x30A0 ≤ c.toNat && c.toNat ≤ 0x30FF) ||
  (0x4E00 ≤ c.toNat && c.toNat ≤ 0x9FFF)

/-- The per-character replacement of the cache-key regex: keep the
allowed characters, replace everything else by an underscore. -/
def bookKeyChar (c : Char) : Char :=
  if isBookKeyChar c then c else '_'

/-- Character-list form of the `bookKey` construction. -/
def makeBookKeyChars (l : List Char) : List Char :=
  (l.take 50).map bookKeyChar

/-- `bookKey` construction of `extractAllBooksAuto`. -/
def makeBookKey (title : String) : String :=
  ⟨makeBookKeyChars title.data⟩

/-! ## Data model -/

/-- One extracted highlight (`{text, location, index}` objects built by
`extractHighlightsFromPage`). -/
structure Highlight where
  text : String
  location : String
  index : Nat
deriving DecidableEq

/-- One extracted book (`{title, author, amazonUrl, coverUrl,
highlights}`). -/
structure Book where
  title : String
  author : String
  amazonUrl : String
  coverUrl : String
  highlights : List Highlight
deriving DecidableEq

/-! ## Count maps

JS objects used as `title → count` / `bookKey → count` maps.  An object
is modelled as an association list where a later binding for the same
key shadows an earlier one; object spread `{...a, ...b}` is then list
append. -/

/-- A JS object holding integer counts. -/
abbrev CountMap : Type := List (String × Int)

/-- Property lookup: the value of the last binding of `k`, if any. -/
def lookupCount (m : CountMap) (k : String) : Option Int :=
  (m.reverse.find? (fun p => p.1 == k)).map (fun p => p.2)

/-- JS `k in obj` / `obj[k] !== undefined`. -/
def containsKey (m : CountMap) (k : String) : Bool :=
  (lookupCount m k).isSome

/-- JS `Object.keys(m).length === 0`. -/
def countMapIsEmpty (m : CountMap) : Bool :=
  m.isEmpty

/-! ## Candidate set planner (`extractAllBooksAuto`, part_000:58-170)

A candidate is a `(title, liveCount)` pair scanned from the library
list; `liveCount` is `-1` when the per-book highlight count cannot be
read from the list view (the unknown sentinel of part_000:111). -/

/-- One summary-view candidate. -/
structure Candidate where
  title : String
  liveCount : Int
deriving DecidableEq

/-- An entry of `booksToProcess`. -/
structure PlannedBook where
  title : String
  highlightCount : Int
  bookKey : String
deriving DecidableEq

/-- `savedCounts` selection (part_000:76-83): the Notion mapping when it
is non-empty, otherwise the persisted local cache. -/
def savedCountsBase (notionCounts localCache : CountMap) : CountMap :=
  if countMapIsEmpty notionCounts then localCache else notionCounts

/-- The per-candidate `shouldProcess` decision of part_000:135-152,
with `selectedSoFar` standing for `booksToProcess.length` at the time
the candidate is examined and `testBookLimit = 0` meaning test mode is
off (`getTestBookLimit` returns `5` or `0`). -/
def shouldProcess (notionCounts localCache : CountMap)
    (testBookLimit selectedSoFar : Nat) (c : Candidate) : Bool :=
  let useNotionCounts := !countMapIsEmpty notionCounts
  let savedCounts := savedCountsBase notionCounts localCache
  let isFirstSync := countMapIsEmpty savedCounts
  let bookKey := makeBookKey c.title
  let existsInNotion :=
    useNotionCounts && (lookupCount notionCounts c.title).isSome
  let savedCount : Int :=
    if useNotionCounts then (lookupCount notionCounts c.title).getD 0
    else (lookupCount savedCounts bookKey).getD 0
  if 0 < testBookLimit then decide (selectedSoFar < testBookLimit)
  else if isFirstSync then true
  else if existsInNotion then
    decide (0 < c.liveCount) && decide (savedCount < c.liveCount)
  else true

/-- State threaded through the planner's first pass. -/
structure PlanState where
  booksToProcess : List PlannedBook
  newCounts : CountMap

/-- One iteration of the first pass (part_000:102-158): record a known
positive live count into `newCounts`, then push the candidate when
`shouldProcess` holds. -/
def planStep (notionCounts localCache : CountMap) (testBookLimit : Nat)
    (st : PlanState) (c : Candidate) : PlanState :=
  let bookKey := makeBookKey c.title
  let newCounts :=
    if 0 < c.liveCount then st.newCounts ++ ([(bookKey, c.liveCount)] : CountMap)
    else st.newCounts
  let selected :=
    shouldProcess notionCounts localCache testBookLimit
      st.booksToProcess.length c
  ⟨if selected then st.booksToProcess ++ [⟨c.title, c.liveCount, bookKey⟩]
    else st.booksToProcess,
   newCounts⟩

/-- The planner's first pass over the summary view. -/
def runPlan (notionCounts localCache : CountMap) (testBookLimit : Nat)
    (candidates : List Candidate) : PlanState :=
  candidates.foldl (planStep notionCounts localCache testBookLimit)
    ⟨[], ([] : CountMap)⟩

/-- The cache persisted at the end of the run (part_000:241-249):
`{ ...savedCounts, ...newCounts }`. -/
def persistedCacheAfterRun (notionCounts localCache : CountMap)
    (testBookLimit : Nat) (candidates : List Candidate) : CountMap :=
  savedCountsBase notionCounts localCache ++
    (runPlan notionCounts localCache testBookLimit candidates).newCounts

/-! ## Dedup merge engine (`syncBooksToNotion`, background.js:123-127) -/

/-- A freshly extracted highlight is novel when no existing stored text
contains the first 50 characters of its text. -/
def isNovelHighlight (existingHighlights : List String) (h : Highlight) :
    Bool :=
  !existingHighlights.any (fun e => strIncludes e (jsSubstring h.text 50))

/-- `newHighlightsList`: the novel highlights, in extraction order. -/
def novelHighlights (existingHighlights : List String)
    (highlights : List Highlight) : List Highlight :=
  highlights.filter (isNovelHighlight existingHighlights)

/-! ## Rate-limited batch committer (`addHighlightBlocks`,
notion-api.js:338-394) -/

/-- One rich-text run of a quote block: its text content and whether it
carries the italic/gray location annotation. -/
structure RichTextItem where
  content : String
  annotated : Bool
deriving DecidableEq

/-- The rich text of one highlight's quote block: the highlight text,
then the annotated location line when a location is present. -/
def highlightRichText (h : Highlight) : List RichTextItem :=
  [⟨h.text, false⟩] ++
    (if h.location ≠ "" then
      [⟨"\n📍 位置No. " ++ h.location, true⟩]
    else [])

/-- A Notion quote block. -/
structure QuoteBlock where
  richText : List RichTextItem
deriving DecidableEq

/-- `children` mapping of `addHighlightBlocks`. -/
def toQuoteBlock (h : Highlight) : QuoteBlock :=
  ⟨highlightRichText h⟩

/-- The observable operations of the batch committer: a PATCH append of
a slice of blocks, or an inter-batch delay. -/
inductive CommitOp where
  | append (pageId : String) (children : List QuoteBlock)
  | delayMs (ms : Nat)
deriving DecidableEq

/-- The batching loop of `addHighlightBlocks`:
`for (let i = 0; i < children.length; i += 100)` appends
`children.slice(i, i + 100)` and delays 350ms when another batch
follows. -/
def addHighlightBatchesAux (pageId : String) (children : List QuoteBlock)
    (i : Nat) : List CommitOp :=
  if i < children.length then
    CommitOp.append pageId ((children.drop i).take 100) ::
      (if i + 100 < children.length then
        CommitOp.delayMs 350 :: addHighlightBatchesAux pageId children (i + 100)
       else addHighlightBatchesAux pageId children (i + 100))
  else []
termination_by children.length - i
decreasing_by
  all_goals omega

/-- The operation trace of `addHighlightBlocks pageId highlights`. -/
def addHighlightBlocksOps (pageId : String) (highlights : List Highlight) :
    List CommitOp :=
  addHighlightBatchesAux pageId (highlights.map toQuoteBlock) 0

/-- Fixed-size chunking (specification-side view of the slices the
batching loop produces). -/
def chunks100 : List α → List (List α)
  | [] => []
  | l@(_ :: _) => l.take 100 :: chunks100 (l.drop 100)
termination_by l => l.length
decreasing_by
  simp_all [List.length_drop]
  omega

/-- Number of append operations in a trace. -/
def countAppends (ops : List CommitOp) : Nat :=
  ops.countP (fun op => match op with | CommitOp.append _ _ => true | _ => false)

/-- Number of delay operations in a trace. -/
def countDelays (ops : List CommitOp) : Nat :=
  ops.countP (fun op => match op with | CommitOp.delayMs _ => true | _ => false)

/-! ## Remote store adapter (`notion-api.js`) -/

/-- A database schema: the `(name, type)` pairs of
`database.properties`. -/
structure DbSchema where
  props : List (String × String)
deriving DecidableEq

/-- Truthiness of `dbProperties[name]`. -/
def hasDbProp (db : DbSchema) (name : String) : Bool :=
  db.props.any (fun p => p.1 == name)

/-- A page object returned by the API (only its id matters here). -/
structure PageRef where
  id : String
deriving DecidableEq

/-- `findBookByTitle` (notion-api.js:49-85).  `getDbResult` is the
outcome of the initial `getDatabase` call (not guarded by a try);
`queryResult` is the outcome of the title-equality query, whose errors
are caught and turned into the not-found result `null`. -/
def findBookByTitle (getDbResult : Except String DbSchema)
    (queryResult : Except String (List PageRef)) (title : String) :
    Except String (Option PageRef) :=
  match getDbResult with
  | Except.error m => Except.error m
  | Except.ok _ =>
    if title ≠ "" then
      match queryResult with
      | Except.ok results =>
        match results with
        | r :: _ => Except.ok (some r)
        | [] => Except.ok none
      | Except.error _ => Except.ok none
    else Except.ok none

/-- A property value written by `updateBookPage`. -/
inductive PropValue where
  | number (n : Int)
  | date (s : String)
deriving DecidableEq

/-- A network call observable in the `updateBookPage` trace. -/
inductive RemoteCall where
  | patchPage (pageId : String) (props : List (String × PropValue))
deriving DecidableEq

/-- The `properties` object built by `updateBookPage`
(notion-api.js:227-241): `Highlight Count` when the schema has that
property and a count was supplied, `Last Synced` (set to the current
time) when the schema has it. -/
def updateBookPageProps (db : DbSchema) (highlightCount : Option Int)
    (now : String) : List (String × PropValue) :=
  (if hasDbProp db "Highlight Count" && highlightCount.isSome then
    [("Highlight Count", PropValue.number (highlightCount.getD 0))]
   else []) ++
  (if hasDbProp db "Last Synced" then
    [("Last Synced", PropValue.date now)]
   else [])

/-- `updateBookPage` (notion-api.js:222-252): fetch the schema, build
the properties, and either return `{ id: pageId }` without any PATCH
when there is nothing to update, or issue one PATCH whose outcome is
`patchResult`.  The first component is the trace of PATCH calls. -/
def updateBookPage (getDbResult : Except String DbSchema)
    (pageId : String) (highlightCount : Option Int) (now : String)
    (patchResult : Except String PageRef) :
    List RemoteCall × Except String PageRef :=
  match getDbResult with
  | Except.error m => ([], Except.error m)
  | Except.ok db =>
    let props := updateBookPageProps db highlightCount now
    if props.isEmpty then ([], Except.ok ⟨pageId⟩)
    else ([RemoteCall.patchPage pageId props], patchResult)

/-! ## Sync orchestrator (`syncBooksToNotion`, background.js:85-187) -/

/-- Counter increments produced while processing one book. -/
structure BookDelta where
  newBooks : Nat
  updatedBooks : Nat
  newHighlights : Nat
deriving DecidableEq

/-- The outcomes of the remote calls made for one book, supplied by the
environment: `findResult` abstracts `findBookByTitle`,
`existingResult` abstracts `getExistingHighlights`, `addToExisting` and
`updateResult` the append/update on an existing page, `createResult`
and `addToNew` the create/append for a new page. -/
structure BookEnv where
  findResult : Except String (Option String)
  existingResult : Except String (List String)
  addToExisting : Except String Unit
  updateResult : Except String Unit
  createResult : Except String String
  addToNew : Except String Unit

/-- Processing of one book inside the per-book `try` of
`syncBooksToNotion` (background.js:101-172).  Counter increments are
recorded exactly when the corresponding source line has executed, so a
failure keeps the increments made before the throw; the second
component is the caught error, if any. -/
def processBook (b : Book) (e : BookEnv) : BookDelta × Option String :=
  match (if b.title ≠ "" then e.findResult else Except.ok none) with
  | Except.error m => (⟨0, 0, 0⟩, some m)
  | Except.ok (some _) =>
    match e.existingResult with
    | Except.error m => (⟨0, 0, 0⟩, some m)
    | Except.ok existing =>
      let novel := novelHighlights existing b.highlights
      if 0 < novel.length then
        match e.addToExisting with
        | Except.error m => (⟨0, 0, 0⟩, some m)
        | Except.ok _ =>
          match e.updateResult with
          | Except.error m => (⟨0, 0, novel.length⟩, some m)
          | Except.ok _ => (⟨0, 1, novel.length⟩, none)
      else (⟨0, 0, 0⟩, none)
  | Except.ok none =>
    match e.createResult with
    | Except.error m => (⟨0, 0, 0⟩, some m)
    | Except.ok _ =>
      if 0 < b.highlights.length then
        match e.addToNew with
        | Except.error m => (⟨1, 0, 0⟩, some m)
        | Except.ok _ => (⟨1, 0, b.highlights.length⟩, none)
      else (⟨1, 0, 0⟩, none)

/-- The aggregate result returned by `syncBooksToNotion`, together with
the per-book outcome trace. -/
structure SyncResult where
  success : Bool
  newBooks : Nat
  updatedBooks : Nat
  newHighlights : Nat
  totalProcessed : Nat
  outcomes : List (BookDelta × Option String)

/-- `syncBooksToNotion`: process every book in order (per-book errors
are caught, logged and skipped over), accumulate the counters, and
return `success: true` with `totalProcessed: books.length`
(background.js:180-186). -/
def syncBooksToNotion (books : List Book) (env : Nat → BookEnv) :
    SyncResult :=
  let outcomes := books.enum.map (fun p => processBook p.2 (env p.1))
  let totals := outcomes.foldl
    (fun t o => (⟨t.newBooks + o.1.newBooks, t.updatedBooks + o.1.updatedBooks,
      t.newHighlights + o.1.newHighlights⟩ : BookDelta)) ⟨0, 0, 0⟩
  ⟨true, totals.newBooks, totals.updatedBooks, totals.newHighlights,
    books.length, outcomes⟩

/-! # Theorems -/

/-! ## Shared helper lemmas -/

theorem bookKeyChar_idem (c : Char) : bookKeyChar (bookKeyChar c) = bookKeyChar c := by
  by_cases h : isBookKeyChar c <;> simp [bookKeyChar, h]

theorem normalizeTitleChars_idem (l : List Char) :
    normalizeTitleChars (normalizeTitleChars l) = normalizeTitleChars l := by
  unfold normalizeTitleChars
  have hall : ∀ c ∈ (l.filter (fun c => !isStrippedChar c)).take 30,
      (!isStrippedChar c) = true := by
    intro c hc
    exact (List.mem_filter.mp (List.take_subset _ _ hc)).2
  rw [List.filter_eq_self.mpr hall, List.take_take]
  simp

theorem makeBookKeyChars_idem (l : List Char) :
    makeBookKeyChars (makeBookKeyChars l) = makeBookKeyChars l := by
  unfold makeBookKeyChars
  have hlen : ((l.take 50).map bookKeyChar).length ≤ 50 := by
    rw [List.length_map, List.length_take]
    exact min_le_left _ _
  rw [List.take_of_length_le hlen, List.map_map]
  have hcomp : bookKeyChar ∘ bookKeyChar = bookKeyChar := funext bookKeyChar_idem
  rw [hcomp]

/-! ## C8 — the two normalizers are idempotent -/

/-- C8: title normalization is deterministic (it is a pure function of
its input) and idempotent, both for the readiness normalizer
(strip characters, truncate to 30) and for the cache-key normalizer
(truncate to 50, replace disallowed characters by an underscore). -/
theorem normalization_idempotent (t : String) :
    normalizeTitle (normalizeTitle t) = normalizeTitle t ∧
    makeBookKey (makeBookKey t) = makeBookKey t := by
  constructor
  · show String.mk (normalizeTitleChars (normalizeTitleChars t.data)) =
      String.mk (normalizeTitleChars t.data)
    exact congrArg String.mk (normalizeTitleChars_idem t.data)
  · show String.mk (makeBookKeyChars (makeBookKeyChars t.data)) =
      String.mk (makeBookKeyChars t.data)
    exact congrArg String.mk (makeBookKeyChars_idem t.data)

/-! ## C2 — dedup merge engine -/

/-- C2: a freshly extracted highlight is classified novel exactly when
no existing stored text contains the first 50 characters of its text as
a contiguous substring, and the forwarded list of novel highlights is a
sublist of the input (hence preserves the original extraction order)
containing exactly the novel ones. -/
theorem dedup_novel_classification (existingHighlights : List String)
    (hs : List Highlight) :
    (∀ h : Highlight, isNovelHighlight existingHighlights h = true ↔
      ∀ e ∈ existingHighlights, ¬ (jsSubstring h.text 50).data <:+: e.data)
    ∧ List.Sublist (novelHighlights existingHighlights hs) hs
    ∧ (∀ h : Highlight, h ∈ novelHighlights existingHighlights hs ↔
        h ∈ hs ∧ isNovelHighlight existingHighlights h = true) := by
  refine ⟨?_, ?_, ?_⟩
  · intro h
    unfold isNovelHighlight strIncludes
    simp
  · unfold novelHighlights
    exact List.filter_sublist _
  · intro h
    unfold novelHighlights
    simp [List.mem_filter]

/-! ## C10 — updateBookPage with nothing to update -/

/-- C10: when the database schema has neither a `Highlight Count` nor a
`Last Synced` property, `updateBookPage` issues no PATCH call and
returns an object whose id is the input page id. -/
theorem update_page_no_patch (db : DbSchema) (pageId : String)
    (highlightCount : Option Int) (now : String)
    (patchResult : Except String PageRef)
    (h1 : hasDbProp db "Highlight Count" = false)
    (h2 : hasDbProp db "Last Synced" = false) :
    updateBookPage (Except.ok db) pageId highlightCount now patchResult =
      ([], Except.ok ⟨pageId⟩) := by
  simp [updateBookPage, updateBookPageProps, h1, h2]

theorem update_page_no_patch_witness :
    updateBookPage (Except.ok ⟨[("Name", "title")]⟩) "page-1" (some 7)
      "2024-01-01T00:00:00Z" (Except.ok ⟨"other-page"⟩) =
      ([], Except.ok ⟨"page-1"⟩) :=
  update_page_no_patch _ _ _ _ _ (by decide) (by decide)

/-! ## C9 — findBookByTitle swallows query errors -/

/-- C9: when the title-equality query inside `findBookByTitle` fails
(and the preceding schema fetch succeeded), the error is caught and the
function returns the not-found result `null`; consequently the
orchestrator takes the new-book path for that book (its `newBooks`
counter increment is 1 once the create call succeeds). -/
theorem find_book_error_returns_null :
    (∀ (db : DbSchema) (msg title : String), title ≠ "" →
      findBookByTitle (Except.ok db) (Except.error msg) title =
        Except.ok none)
    ∧ (∀ (b : Book) (e : BookEnv) (pid : String), b.title ≠ "" →
        e.findResult = Except.ok none → e.createResult = Except.ok pid →
        (processBook b e).1.newBooks = 1) := by
  constructor
  · intro db msg title ht
    simp [findBookByTitle, ht]
  · intro b e pid ht hfind hcreate
    unfold processBook
    rw [if_pos ht, hfind, hcreate]
    by_cases hl : 0 < b.highlights.length
    · rw [if_pos hl]
      cases e.addToNew <;> rfl
    · rw [if_neg hl]

theorem find_book_error_returns_null_witness :
    findBookByTitle (Except.ok ⟨[("Name", "title")]⟩)
        (Except.error "network error") "Some Book" = Except.ok none
    ∧ (processBook ⟨"Some Book", "", "", "", []⟩
        ⟨Except.ok none, Except.ok [], Except.ok (), Except.ok (),
          Except.ok "new-page", Except.ok ()⟩).1.newBooks = 1 :=
  ⟨find_book_error_returns_null.1 _ "network error" "Some Book" (by decide),
   find_book_error_returns_null.2 ⟨"Some Book", "", "", "", []⟩ _ "new-page"
     (by decide) rfl rfl⟩

/-! ## C6 — per-book failures do not abort the sync -/

/-- C6: for every book list and every environment of remote-call
outcomes (including ones where some or all books fail), the sync
produces one outcome per input book, in order, and returns
`success: true` with `totalProcessed` equal to the input length; no
per-book error propagates out of the loop. -/
theorem sync_error_isolation (books : List Book) (env : Nat → BookEnv) :
    (syncBooksToNotion books env).success = true
    ∧ (syncBooksToNotion books env).totalProcessed = books.length
    ∧ (syncBooksToNotion books env).outcomes.length = books.length
    ∧ (syncBooksToNotion books env).outcomes =
        books.enum.map (fun p => processBook p.2 (env p.1)) := by
  refine ⟨rfl, rfl, ?_, rfl⟩
  simp [syncBooksToNotion]

/-! ## Planner helper lemmas -/

theorem lookupCount_not_isEmpty {m : CountMap} {k : String} {v : Int}
    (h : lookupCount m k = some v) : countMapIsEmpty m = false := by
  cases m with
  | nil => simp [lookupCount] at h
  | cons p ps => rfl

theorem lookupCount_append (a b : CountMap) (k : String) :
    lookupCount (a ++ b) k = (lookupCount b k).or (lookupCount a k) := by
  unfold lookupCount
  rw [List.reverse_append, List.find?_append]
  cases b.reverse.find? (fun p => p.1 == k) <;> simp [Option.or]

theorem lookupCount_mem {m : CountMap} {k : String} {v : Int}
    (h : lookupCount m k = some v) : (k, v) ∈ m := by
  unfold lookupCount at h
  cases hf : m.reverse.find? (fun p => p.1 == k) with
  | none => rw [hf] at h; simp at h
  | some p =>
    rw [hf] at h
    simp at h
    have hp := List.find?_some hf
    have hm := List.mem_of_find?_eq_some hf
    rw [List.mem_reverse] at hm
    have hk : p.1 = k := by simpa using hp
    have hpkv : p = (k, v) := by
      cases p with
      | mk p1 p2 =>
        simp at hk h ⊢
        exact ⟨hk, h⟩
    rwa [hpkv] at hm

theorem runPlan_newCounts_mem (notionCounts localCache : CountMap)
    (testBookLimit : Nat) :
    ∀ (cands : List Candidate) (st : PlanState) (p : String × Int),
      p ∈ (cands.foldl (planStep notionCounts localCache testBookLimit) st).newCounts →
      p ∈ st.newCounts ∨
        (0 < p.2 ∧ ∃ c ∈ cands, p.1 = makeBookKey c.title ∧ p.2 = c.liveCount) := by
  intro cands
  induction cands with
  | nil =>
    intro st p h
    exact Or.inl h
  | cons c cs ih =>
    intro st p h
    rw [List.foldl_cons] at h
    rcases ih (planStep notionCounts localCache testBookLimit st c) p h with
      h1 | ⟨hpos, c', hc', hk, hv⟩
    · by_cases hlc : 0 < c.liveCount
      · simp only [planStep, hlc, if_true, if_pos] at h1
        rw [List.mem_append] at h1
        rcases h1 with h2 | h2
        · exact Or.inl h2
        · rw [List.mem_singleton] at h2
          subst h2
          exact Or.inr ⟨hlc, c, List.mem_cons_self _ _, rfl, rfl⟩
      · simp only [planStep, hlc, if_false, if_neg, not_false_iff] at h1
        exact Or.inl h1
    · exact Or.inr ⟨hpos, c', List.mem_cons_of_mem _ hc', hk, hv⟩

/-! ## C1 — remote-present candidates -/

/-- C1: outside test mode, for a candidate whose title has a
(non-negative) count in the Notion mapping, the planner selects it
exactly when the live count is known and strictly greater than the
remote count; a remote-present candidate with the unknown sentinel
`-1` is never selected (for any remote count value). -/
theorem planner_remote_present_selection :
    (∀ (notionCounts localCache : CountMap) (selectedSoFar : Nat)
        (c : Candidate) (r : Int),
        lookupCount notionCounts c.title = some r → 0 ≤ r →
        (shouldProcess notionCounts localCache 0 selectedSoFar c = true ↔
          (c.liveCount ≠ -1 ∧ r < c.liveCount)))
    ∧ (∀ (notionCounts localCache : CountMap) (selectedSoFar : Nat)
        (c : Candidate),
        (lookupCount notionCounts c.title).isSome = true →
        c.liveCount = -1 →
        shouldProcess notionCounts localCache 0 selectedSoFar c = false) := by
  constructor
  · intro nc lc n c r hr hr0
    have hne := lookupCount_not_isEmpty hr
    simp [shouldProcess, savedCountsBase, hne, hr]
    omega
  · intro nc lc n c hsome hlive
    have hne : countMapIsEmpty nc = false := by
      cases hx : lookupCount nc c.title with
      | none => rw [hx] at hsome; simp at hsome
      | some v => exact lookupCount_not_isEmpty hx
    simp [shouldProcess, savedCountsBase, hne, hsome, hlive]

theorem planner_remote_present_selection_witness :
    shouldProcess [("A", 3)] [] 0 0 ⟨"A", 5⟩ = true :=
  (planner_remote_present_selection.1 [("A", 3)] [] 0 ⟨"A", 5⟩ 3 (by decide)
    (by decide)).mpr (by decide)

/-! ## C4 — remote-absent candidates -/

/-- C4: a candidate whose title is absent from the Notion mapping is
always selected, except that in test mode ("limited mode") selection
additionally requires the cap not to have been reached yet. -/
theorem planner_remote_absent_selection (notionCounts localCache : CountMap)
    (testBookLimit selectedSoFar : Nat) (c : Candidate)
    (h : lookupCount notionCounts c.title = none) :
    shouldProcess notionCounts localCache testBookLimit selectedSoFar c = true ↔
      (testBookLimit = 0 ∨ selectedSoFar < testBookLimit) := by
  by_cases hl : 0 < testBookLimit
  · simp [shouldProcess, hl]
    omega
  · have h0 : testBookLimit = 0 := by omega
    subst h0
    simp [shouldProcess, savedCountsBase, h]

theorem planner_remote_absent_selection_witness :
    shouldProcess [("A", 3)] [] 0 0 ⟨"Z", -1⟩ = true :=
  (planner_remote_absent_selection [("A", 3)] [] 0 0 ⟨"Z", -1⟩
    (by decide)).mpr (Or.inl rfl)

/-! ## C5 — the persisted cache after a run -/

/-- C5 (amended): the cache persisted at the end of a run equals the
run's comparison base — the previously persisted local cache when no
Notion counts were available, otherwise the Notion count mapping —
merged with the run's freshly observed counts.  Every key of that base
stays present, a looked-up value either comes from the base or is a
freshly observed strictly positive live count of some candidate, and
in the no-Notion-counts path every key of the previously persisted
local cache stays present. -/
theorem cache_merge_after_run (notionCounts localCache : CountMap)
    (testBookLimit : Nat) (candidates : List Candidate) (k : String) :
    (containsKey (savedCountsBase notionCounts localCache) k = true →
      containsKey
        (persistedCacheAfterRun notionCounts localCache testBookLimit candidates)
        k = true)
    ∧ (∀ v : Int,
        lookupCount
          (persistedCacheAfterRun notionCounts localCache testBookLimit candidates)
          k = some v →
        lookupCount (savedCountsBase notionCounts localCache) k = some v ∨
          (0 < v ∧ ∃ c ∈ candidates, makeBookKey c.title = k ∧ c.liveCount = v))
    ∧ (notionCounts = [] →
        containsKey localCache k = true →
        containsKey
          (persistedCacheAfterRun notionCounts localCache testBookLimit candidates)
          k = true) := by
  have hper : persistedCacheAfterRun notionCounts localCache testBookLimit candidates =
      savedCountsBase notionCounts localCache ++
        (runPlan notionCounts localCache testBookLimit candidates).newCounts := rfl
  have hpres : containsKey (savedCountsBase notionCounts localCache) k = true →
      containsKey
        (persistedCacheAfterRun notionCounts localCache testBookLimit candidates)
        k = true := by
    intro h
    unfold containsKey at h ⊢
    rw [hper, lookupCount_append]
    cases hx :
        lookupCount (runPlan notionCounts localCache testBookLimit candidates).newCounts k with
    | none => simpa [Option.or, hx] using h
    | some w => simp [Option.or, hx]
  refine ⟨hpres, ?_, ?_⟩
  · intro v hv
    rw [hper, lookupCount_append] at hv
    cases hx :
        lookupCount (runPlan notionCounts localCache testBookLimit candidates).newCounts k with
    | none =>
      rw [hx] at hv
      simp [Option.or] at hv
      exact Or.inl hv
    | some w =>
      rw [hx] at hv
      simp [Option.or] at hv
      right
      have hmem := lookupCount_mem hx
      unfold runPlan at hmem
      rcases runPlan_newCounts_mem notionCounts localCache testBookLimit
          candidates ⟨[], ([] : CountMap)⟩ (k, w) hmem with habs | ⟨hpos, c, hc, hk, hv2⟩
      · simp at habs
      · simp at hpos hk hv2
        subst hv
        exact ⟨hpos, c, hc, hk.symm, hv2.symm⟩
  · intro hnc h
    apply hpres
    subst hnc
    simpa [savedCountsBase, countMapIsEmpty] using h

theorem cache_merge_after_run_witness :
    containsKey (persistedCacheAfterRun [] [("B", 5)] 0 []) "B" = true :=
  (cache_merge_after_run [] [("B", 5)] 0 [] "B").2.2 rfl (by decide)

/-- C5, counterexample to the claim as stated: with Notion counts
available (`{"A": 3}`), a previously persisted local cache `{"B": 5}`
and one candidate with unknown live count, the persisted cache after
the run is `{"A": 3}` — the key `"B"` of the previously persisted
cache is dropped, because the merge base is the Notion mapping, not
the previous cache. -/
theorem cache_merge_counterexample :
    containsKey [("B", 5)] "B" = true ∧
    containsKey (persistedCacheAfterRun [("A", 3)] [("B", 5)] 0 [⟨"X", -1⟩])
      "B" = false := by
  decide

/-! ## Batch committer helper lemmas -/

theorem ceil_div_step (n : Nat) (hn : 1 ≤ n) :
    (n - 100 + 99) / 100 + 1 = (n + 99) / 100 := by
  by_cases h : 100 ≤ n
  · have h1 : n - 100 + 99 = n - 1 := by omega
    have h2 : n + 99 = n - 1 + 100 := by omega
    rw [h1, h2, Nat.add_div_right _ (by norm_num)]
  · have h1 : n - 100 + 99 = 99 := by omega
    have hr : (n + 99) / 100 = 1 := Nat.div_eq_of_lt_le (by omega) (by omega)
    rw [h1, hr]

theorem chunks100_nil : chunks100 ([] : List α) = [] := by
  rw [chunks100]

theorem chunks100_cons (x : α) (xs : List α) :
    chunks100 (x :: xs) = (x :: xs).take 100 :: chunks100 ((x :: xs).drop 100) := by
  rw [chunks100]

theorem chunks100_ne_nil_eq {l : List α} (h : l ≠ []) :
    chunks100 l = l.take 100 :: chunks100 (l.drop 100) := by
  cases l with
  | nil => exact absurd rfl h
  | cons x xs => exact chunks100_cons x xs

theorem chunks100_length : ∀ (l : List α),
    (chunks100 l).length = (l.length + 99) / 100
  | [] => by simp [chunks100_nil]
  | x :: xs => by
    rw [chunks100_cons]
    simp only [List.length_cons]
    rw [chunks100_length ((x :: xs).drop 100), List.length_drop]
    simp only [List.length_cons]
    exact ceil_div_step (xs.length + 1) (by omega)
termination_by l => l.length
decreasing_by
  simp
  omega

theorem chunks100_flatten : ∀ (l : List α), (chunks100 l).flatten = l
  | [] => by simp [chunks100_nil]
  | x :: xs => by
    rw [chunks100_cons, List.flatten_cons, chunks100_flatten ((x :: xs).drop 100)]
    exact List.take_append_drop 100 (x :: xs)
termination_by l => l.length
decreasing_by
  simp
  omega

theorem chunks100_mem_length : ∀ (l b : List α), b ∈ chunks100 l → b.length ≤ 100
  | [], b, hb => by simp [chunks100_nil] at hb
  | x :: xs, b, hb => by
    rw [chunks100_cons] at hb
    rcases List.mem_cons.mp hb with h | h
    · subst h
      rw [List.length_take]
      exact min_le_left _ _
    · exact chunks100_mem_length ((x :: xs).drop 100) b h
termination_by l _ _ => l.length
decreasing_by
  simp
  omega

theorem addHighlightBatchesAux_eq (pid : String) (children : List QuoteBlock)
    (i : Nat) :
    addHighlightBatchesAux pid children i =
      List.intersperse (CommitOp.delayMs 350)
        ((chunks100 (children.drop i)).map (CommitOp.append pid)) := by
  rw [addHighlightBatchesAux]
  by_cases h : i < children.length
  · rw [if_pos h]
    have hne : children.drop i ≠ [] := by
      rw [ne_eq, List.drop_eq_nil_iff]
      omega
    rw [chunks100_ne_nil_eq hne, List.map_cons]
    have hdd : (children.drop i).drop 100 = children.drop (i + 100) :=
      List.drop_drop 100 i children
    rw [hdd]
    by_cases h2 : i + 100 < children.length
    · have hne2 : children.drop (i + 100) ≠ [] := by
        rw [ne_eq, List.drop_eq_nil_iff]
        omega
      have hcne : chunks100 (children.drop (i + 100)) ≠ [] := by
        cases hc : children.drop (i + 100) with
        | nil => exact absurd hc hne2
        | cons y ys =>
          rw [chunks100_cons]
          simp
      obtain ⟨z, zs, hz⟩ := List.exists_cons_of_ne_nil hcne
      rw [if_pos h2, addHighlightBatchesAux_eq pid children (i + 100), hz,
        List.map_cons, List.intersperse_cons_cons]
    · rw [if_neg h2]
      have hnil : children.drop (i + 100) = [] := by
        rw [List.drop_eq_nil_iff]
        omega
      rw [addHighlightBatchesAux_eq pid children (i + 100), hnil,
        chunks100_nil, List.map_nil, List.intersperse_singleton]
      rfl
  · rw [if_neg h]
    have hnil : children.drop i = [] := by
      rw [List.drop_eq_nil_iff]
      omega
    rw [hnil, chunks100_nil, List.map_nil]
    rfl
termination_by children.length - i
decreasing_by
  all_goals omega

theorem countAppends_intersperse_delay (m : Nat) (l : List CommitOp) :
    countAppends (List.intersperse (CommitOp.delayMs m) l) = countAppends l := by
  induction l with
  | nil => rfl
  | cons x xs ih =>
    cases xs with
    | nil => rfl
    | cons y ys =>
      rw [List.intersperse_cons_cons]
      unfold countAppends at ih ⊢
      simp only [List.countP_cons] at ih ⊢
      simp at ih ⊢
      omega

theorem countDelays_intersperse_delay (m : Nat) (l : List CommitOp) :
    countDelays (List.intersperse (CommitOp.delayMs m) l) =
      countDelays l + (l.length - 1) := by
  induction l with
  | nil => rfl
  | cons x xs ih =>
    cases xs with
    | nil => simp [List.intersperse_singleton]
    | cons y ys =>
      rw [List.intersperse_cons_cons]
      unfold countDelays at ih ⊢
      simp only [List.countP_cons, List.length_cons] at ih ⊢
      simp at ih ⊢
      omega

theorem counts_map_append (pid : String) (l : List (List QuoteBlock)) :
    countAppends (l.map (CommitOp.append pid)) = l.length ∧
    countDelays (l.map (CommitOp.append pid)) = 0 := by
  induction l with
  | nil => exact ⟨rfl, rfl⟩
  | cons b bs ih =>
    unfold countAppends countDelays at ih ⊢
    simp only [List.map_cons, List.countP_cons, List.length_cons]
    simp [ih.1, ih.2]

theorem mem_intersperse_delay {a : CommitOp} {m : Nat} {l : List CommitOp}
    (h : a ∈ List.intersperse (CommitOp.delayMs m) l) :
    a ∈ l ∨ a = CommitOp.delayMs m := by
  induction l with
  | nil => simp at h
  | cons x xs ih =>
    cases xs with
    | nil =>
      simp at h
      exact Or.inl (by simp [h])
    | cons y ys =>
      rw [List.intersperse_cons_cons] at h
      rcases List.mem_cons.mp h with h1 | h1
      · exact Or.inl (h1 ▸ List.mem_cons_self _ _)
      · rcases List.mem_cons.mp h1 with h2 | h2
        · exact Or.inr h2
        · rcases ih h2 with h3 | h3
          · exact Or.inl (List.mem_cons_of_mem _ h3)
          · exact Or.inr h3

/-! ## C3 — fixed-size batching with inter-batch delays -/

/-- C3: for a non-empty list of `n` novel highlights,
`addHighlightBlocks` issues exactly `ceil(n / 100)` append operations —
its trace is the list of 100-element slices of the mapped quote blocks
with one 350ms delay interspersed between each consecutive pair — so
there are `ceil(n / 100) - 1` delays, every batch has at most 100
blocks, and the concatenation of the slices is the original block list
in order. -/
theorem batch_committer_batches (pageId : String) (hs : List Highlight)
    (_hne : hs ≠ []) :
    addHighlightBlocksOps pageId hs =
      List.intersperse (CommitOp.delayMs 350)
        ((chunks100 (hs.map toQuoteBlock)).map (CommitOp.append pageId))
    ∧ countAppends (addHighlightBlocksOps pageId hs) = (hs.length + 99) / 100
    ∧ countDelays (addHighlightBlocksOps pageId hs) =
        (hs.length + 99) / 100 - 1
    ∧ (∀ b, CommitOp.append pageId b ∈ addHighlightBlocksOps pageId hs →
        b.length ≤ 100)
    ∧ (chunks100 (hs.map toQuoteBlock)).flatten = hs.map toQuoteBlock := by
  have hops : addHighlightBlocksOps pageId hs =
      List.intersperse (CommitOp.delayMs 350)
        ((chunks100 (hs.map toQuoteBlock)).map (CommitOp.append pageId)) := by
    unfold addHighlightBlocksOps
    rw [addHighlightBatchesAux_eq, List.drop_zero]
  have hchlen : (chunks100 (hs.map toQuoteBlock)).length = (hs.length + 99) / 100 := by
    rw [chunks100_length, List.length_map]
  refine ⟨hops, ?_, ?_, ?_, chunks100_flatten _⟩
  · rw [hops, countAppends_intersperse_delay, (counts_map_append _ _).1, hchlen]
  · rw [hops, countDelays_intersperse_delay, (counts_map_append _ _).2,
      List.length_map, hchlen]
    omega
  · intro b hb
    rw [hops] at hb
    rcases mem_intersperse_delay hb with h1 | h1
    · rw [List.mem_map] at h1
      obtain ⟨bb, hbb, heq⟩ := h1
      injection heq with heq1 heq2
      subst heq2
      exact chunks100_mem_length _ _ hbb
    · exact CommitOp.noConfusion h1

theorem batch_committer_batches_witness :
    countAppends
        (addHighlightBlocksOps "page" (List.replicate 250 ⟨"h", "", 0⟩)) = 3
    ∧ countDelays
        (addHighlightBlocksOps "page" (List.replicate 250 ⟨"h", "", 0⟩)) = 2 := by
  have hne : (List.replicate 250 (⟨"h", "", 0⟩ : Highlight)) ≠ [] :=
    List.length_pos.mp (by rw [List.length_replicate]; omega)
  have h := batch_committer_batches "page" (List.replicate 250 ⟨"h", "", 0⟩) hne
  refine ⟨?_, ?_⟩
  · rw [h.2.1, List.length_replicate]
  · rw [h.2.2.1, List.length_replicate]

/-! ## C7 — readiness detector title matching -/

/-- C7: the readiness matcher succeeds on a (non-empty) displayed panel
title exactly when some non-empty member of the variant collection —
the full normalized expected title, the normalized form of each
delimiter-split segment, and its 10- and 15-character prefixes when the
normalized form is longer — contains the normalized panel title or is
contained in it; in particular the expected title
"Atomic Habits: An Easy Way..." matches the panel title
"Atomic Habits". -/
theorem readiness_title_match :
    (∀ expectedTitle currentTitle : String, currentTitle ≠ "" →
      (matchesExpected expectedTitle currentTitle = true ↔
        ∃ v ∈ expectedVariants expectedTitle, v ≠ "" ∧
          (v.data <:+: (normalizeTitle currentTitle).data ∨
           (normalizeTitle currentTitle).data <:+: v.data)))
    ∧ matchesExpected "Atomic Habits: An Easy Way..." "Atomic Habits" = true := by
  constructor
  · intro e c hc
    rw [matchesExpected, if_neg hc, List.any_eq_true]
    constructor
    · rintro ⟨v, hv, hcond⟩
      rw [Bool.and_eq_true, Bool.or_eq_true] at hcond
      refine ⟨v, hv, ?_, ?_⟩
      · intro hveq
        rw [hveq] at hcond
        simp at hcond
      · rcases hcond.2 with h1 | h1
        · exact Or.inl (of_decide_eq_true h1)
        · exact Or.inr (of_decide_eq_true h1)
    · rintro ⟨v, hv, hne, hcond⟩
      refine ⟨v, hv, ?_⟩
      rw [Bool.and_eq_true, Bool.or_eq_true]
      refine ⟨by simpa using hne, ?_⟩
      rcases hcond with h1 | h1
      · exact Or.inl (decide_eq_true h1)
      · exact Or.inr (decide_eq_true h1)
  · decide

theorem readiness_title_match_witness :
    matchesExpected "Atomic Habits: An Easy Way..." "Atomic Habits" = true ↔
      ∃ v ∈ expectedVariants "Atomic Habits: An Easy Way...", v ≠ "" ∧
        (v.data <:+: (normalizeTitle "Atomic Habits").data ∨
         (normalizeTitle "Atomic Habits").data <:+: v.data) :=
  readiness_title_match.1 "Atomic Habits: An Easy Way..." "Atomic Habits"
    (by decide)
